import Mathlib

/-!
Shallow embedding of the finance-tracker aggregation core: the Dashboard
aggregates, the Monthly Ledger running balance, the Target (emergency fund)
progress computation, the category color resolver, and the finance service's
top-categories summary. Amounts are modelled as exact rationals; dates as
integer day ordinals (only their ordering matters for window membership).
-/

namespace FinanceTracker

/-- Transaction type enum from `financeStore.ts`: `'income' | 'expense'`. -/
inductive TxType where
  | income : TxType
  | expense : TxType
deriving DecidableEq, Repr

/-- A transaction record (`financeStore.ts` `Transaction`), restricted to the
fields the aggregation core reads: signed `amount`, `category` display name,
`date` (modelled as a day ordinal), and `type`. -/
structure Tx where
  amount : ℚ
  category : String
  date : ℤ
  type : TxType
deriving DecidableEq, Repr

/-- A category record (`financeStore.ts` `Category`), restricted to the fields
the resolver reads: `name` and display `color`. -/
structure Category where
  name : String
  color : String
deriving DecidableEq, Repr

/-- An inclusive calendar-month window `{start, end}` (from
`startOfMonth`/`endOfMonth`); `stop` stands for `end`, a Lean keyword. -/
structure Window where
  start : ℤ
  stop : ℤ
deriving DecidableEq, Repr

/-- `isWithinInterval(new Date(t.date), { start, end })`: inclusive membership
on both ends. -/
def inWindow (w : Window) (t : Tx) : Bool :=
  decide (w.start ≤ t.date ∧ t.date ≤ w.stop)

/-- `transactions.filter((transaction) => isWithinInterval(...))` — the
current-month restriction used by Dashboard, Target and MonthlyLedger. -/
def currentMonthTransactions (ts : List Tx) (w : Window) : List Tx :=
  ts.filter (inWindow w)

/-- Dashboard / Target: `filter(t => t.type === 'income').reduce((sum, t) => sum + t.amount, 0)`. -/
def totalIncome (ts : List Tx) : ℚ :=
  (ts.filter (fun t => decide (t.type = TxType.income))).foldl
    (fun sum t => sum + t.amount) 0

/-- Dashboard / Target: `filter(t => t.type === 'expense').reduce((sum, t) => sum + Math.abs(t.amount), 0)`. -/
def totalExpenses (ts : List Tx) : ℚ :=
  (ts.filter (fun t => decide (t.type = TxType.expense))).foldl
    (fun sum t => sum + |t.amount|) 0

/-- Dashboard / Target: `netBalance = totalIncome - totalExpenses`. -/
def netBalance (ts : List Tx) : ℚ :=
  totalIncome ts - totalExpenses ts

/-- `transactions.reduce((sum, t) => sum + t.amount, 0)` over the whole
(unfiltered) transaction list — `baseBalance`'s else-branch in `Target.tsx`. -/
def allAmountsSum (ts : List Tx) : ℚ :=
  ts.foldl (fun sum t => sum + t.amount) 0

section TargetTracker

/-- Target.tsx: `dashboardMonthlySavings = savingAmount ?? netBalance`
(`??` is null-coalescing: only `null` falls through). `ts` is the full
transaction list, `w` the current-month window. -/
def dashboardMonthlySavings (savingAmount : Option ℚ) (ts : List Tx)
    (w : Window) : ℚ :=
  savingAmount.getD (netBalance (currentMonthTransactions ts w))

/-- Target.tsx: `baseBalance = savingAmount ? 0 : transactions.reduce((sum, t) => sum + t.amount, 0)`.
JS truthiness: `null` and `0` are falsy, any other number is truthy. -/
def baseBalance (savingAmount : Option ℚ) (ts : List Tx) : ℚ :=
  match savingAmount with
  | none => allAmountsSum ts
  | some v => if v = 0 then allAmountsSum ts else 0

/-- Target.tsx: `currentBalance = baseBalance + dashboardMonthlySavings`. -/
def currentBalance (savingAmount : Option ℚ) (ts : List Tx) (w : Window) : ℚ :=
  baseBalance savingAmount ts + dashboardMonthlySavings savingAmount ts w

/-- Target.tsx: `amountNeeded = Math.max(0, finalEmergencyFundGoal - currentBalance)`. -/
def amountNeeded (goal balance : ℚ) : ℚ :=
  max 0 (goal - balance)

/-- Target.tsx: `progressPercentage = finalEmergencyFundGoal > 0 ?
Math.min(100, (currentBalance / finalEmergencyFundGoal) * 100) : 0`. -/
def progressPercentage (goal balance : ℚ) : ℚ :=
  if goal > 0 then min 100 (balance / goal * 100) else 0

/-- Target.tsx line 56: `monthsToGoal = currentBalance > 0 ?
Math.ceil(finalEmergencyFundGoal / currentBalance) : 0`. Note the divisor is
the balance, and the monthly contribution is not an input at all. -/
def monthsToGoal (goal balance : ℚ) : ℤ :=
  if balance > 0 then ⌈goal / balance⌉ else 0

/-- Modelled from the spec: the Target Tracker contract `trackTarget`'s
`monthsToGoal` (§4.4), which is absent from the code: `0` if
`monthlyContribution <= 0`, otherwise `ceil(amountNeeded / monthlyContribution)`
with `amountNeeded = max(0, goal - currentBalance)`. -/
def monthsToGoalSpec (goal balance contribution : ℚ) : ℤ :=
  if contribution ≤ 0 then 0 else ⌈amountNeeded goal balance / contribution⌉

end TargetTracker

section Ledger

/-- MonthlyLedger (running-balance accumulator):
`let runningBalance = 0; sortedTransactions.map(t => { runningBalance += t.amount; return {...t, runningBalance} })`,
with the accumulator threaded explicitly. -/
def withRunningBalance (acc : ℚ) : List Tx → List (Tx × ℚ)
  | [] => []
  | t :: ts => (t, acc + t.amount) :: withRunningBalance (acc + t.amount) ts

/-- MonthlyLedger: `transactionsWithBalance` starts the accumulator at `0`. -/
def transactionsWithBalance (ts : List Tx) : List (Tx × ℚ) :=
  withRunningBalance 0 ts

/-- MonthlyLedger / DoughnutChart:
`categories.find(c => c.name === categoryName)?.color || '#6b7280'`.
JS `||` falls back when the left side is falsy, which for strings means the
empty string as well as a missing match. -/
def getCategoryColor (categoryName : String) (categories : List Category) :
    String :=
  match categories.find? (fun c => c.name == categoryName) with
  | some c => if c.color = "" then "#6b7280" else c.color
  | none => "#6b7280"

end Ledger

section DashboardBreakdown

/-- Dashboard (`expensesByCategory` accumulator): the JS object update
`acc[categoryName] = (acc[categoryName] || 0) + Math.abs(transaction.amount)`,
with the object modelled as an association list in key-insertion order
(JS objects enumerate string keys in insertion order; updating an existing
key keeps its position). -/
def upsertAmount : List (String × ℚ) → String → ℚ → List (String × ℚ)
  | [], k, a => [(k, a)]
  | (k', v) :: rest, k, a =>
    if k' = k then (k', v + a) :: rest else (k', v) :: upsertAmount rest k a

/-- Dashboard: `const category = categories.find(c => c.name === t.category);
const categoryName = category?.name || 'Other'`. JS `||` also falls back when
the found name is the empty string (falsy). -/
def resolveCategoryName (cats : List Category) (txCategory : String) : String :=
  match cats.find? (fun c => c.name == txCategory) with
  | some c => if c.name = "" then "Other" else c.name
  | none => "Other"

/-- Dashboard: `expensesByCategory = currentMonthTransactions
.filter(t => t.type === 'expense').reduce((acc, t) => { ... }, {})`. -/
def expensesByCategory (ts : List Tx) (cats : List Category) :
    List (String × ℚ) :=
  (ts.filter (fun t => decide (t.type = TxType.expense))).foldl
    (fun acc t => upsertAmount acc (resolveCategoryName cats t.category)
      |t.amount|) []

/-- The JS read `acc[k] || 0`: the accumulated amount stored under key `k`,
or `0` when the key is absent. -/
def lookupAmount (acc : List (String × ℚ)) (k : String) : ℚ :=
  match acc.find? (fun p => p.1 == k) with
  | some p => p.2
  | none => 0

end DashboardBreakdown

section TopCategories

/-- One entry of `financeService.getTopCategories`'s result:
`{category, amount, count}`. -/
structure CatEntry where
  category : String
  amount : ℚ
  count : ℕ
deriving DecidableEq, Repr

/-- `financeService.getTopCategories`'s map update:
`categoryMap.set(t.category, { amount: existing.amount + Math.abs(t.amount),
count: existing.count + 1 })` with
`existing = categoryMap.get(t.category) || { amount: 0, count: 0 }`; a JS
`Map` keeps an updated key at its original position and appends new keys. -/
def upsertCatEntry : List CatEntry → String → ℚ → List CatEntry
  | [], k, a => [⟨k, a, 1⟩]
  | e :: rest, k, a =>
    if e.category = k then ⟨k, e.amount + a, e.count + 1⟩ :: rest
    else e :: upsertCatEntry rest k a

/-- `financeService.getTopCategories`: the `categoryMap` built by
`transactions.forEach(...)` over ALL transactions given (no type filter). -/
def buildCategoryMap (ts : List Tx) : List CatEntry :=
  ts.foldl (fun m t => upsertCatEntry m t.category |t.amount|) []

/-- The JS `Map.get(k)` read on the category map. -/
def lookupCat (m : List CatEntry) (k : String) : Option (ℚ × ℕ) :=
  match m.find? (fun e => e.category == k) with
  | some e => some (e.amount, e.count)
  | none => none

/-- Stable insertion step of `.sort((a, b) => b.amount - a.amount)`:
descending by amount, equal amounts keep their original relative order. -/
def insertDescByAmount (x : CatEntry) : List CatEntry → List CatEntry
  | [] => [x]
  | y :: ys =>
    if y.amount ≤ x.amount then x :: y :: ys else y :: insertDescByAmount x ys

/-- `.sort((a, b) => b.amount - a.amount)` as a stable insertion sort. -/
def sortDescByAmount : List CatEntry → List CatEntry
  | [] => []
  | x :: xs => insertDescByAmount x (sortDescByAmount xs)

/-- `financeService.getTopCategories(transactions)`: build the category map
over all given transactions, sort entries by amount descending, `.slice(0, 5)`. -/
def getTopCategories (ts : List Tx) : List CatEntry :=
  (sortDescByAmount (buildCategoryMap ts)).take 5

/-- The amount component of the JS `Map.get(k)` read, with
`{amount: 0, ...}` as the default for an absent key. -/
def mapAmount (m : List CatEntry) (k : String) : ℚ :=
  match m.find? (fun e => e.category == k) with
  | some e => e.amount
  | none => 0

/-- The count component of the JS `Map.get(k)` read, with
`{..., count: 0}` as the default for an absent key. -/
def mapCount (m : List CatEntry) (k : String) : ℕ :=
  match m.find? (fun e => e.category == k) with
  | some e => e.count
  | none => 0

/-- The transactions of a list whose `category` is `k` (specification-side
observer used to state what `getTopCategories` accumulates). -/
def categoryTxs (l : List Tx) (k : String) : List Tx :=
  l.filter (fun t => t.category == k)

/-- Total absolute amount of the transactions of a list with category `k`. -/
def categoryAmountIn (l : List Tx) (k : String) : ℚ :=
  ((categoryTxs l k).map (fun t => |t.amount|)).sum

/-- Number of transactions of a list with category `k`. -/
def categoryCountIn (l : List Tx) (k : String) : ℕ :=
  (categoryTxs l k).length

end TopCategories

end FinanceTracker

namespace FinanceTracker

/-! ### Claim C1: months-to-goal formula -/

/-- C1: at the claim's own example `trackTarget(goal=10000, currentBalance=2500,
monthlyContribution=500)`, the code's `monthsToGoal` yields
`ceil(10000 / 2500) = 4`, not the claimed `ceil(7500 / 500) = 15`; the code's
formula divides the goal by the current balance, guards on `currentBalance > 0`
rather than `monthlyContribution <= 0`, and ignores the monthly contribution
entirely, while the spec-modelled formula yields `15`. -/
theorem C1_monthsToGoal_code_bug :
    monthsToGoal 10000 2500 = 4 ∧
    monthsToGoalSpec 10000 2500 500 = 15 ∧
    monthsToGoal 10000 2500 ≠ monthsToGoalSpec 10000 2500 500 := by
  refine ⟨?_, ?_, ?_⟩
  · show (if (2500 : ℚ) > 0 then ⌈(10000 : ℚ) / 2500⌉ else 0) = 4
    norm_num
  · show (if (500 : ℚ) ≤ 0 then 0 else ⌈amountNeeded 10000 2500 / 500⌉) = 15
    norm_num [amountNeeded]
  · show (if (2500 : ℚ) > 0 then ⌈(10000 : ℚ) / 2500⌉ else 0) ≠
      (if (500 : ℚ) ≤ 0 then 0 else ⌈amountNeeded 10000 2500 / 500⌉)
    norm_num [amountNeeded]

/-! ### Claim C3: percentComplete formula and bounds -/

/-- C3: `percentComplete` is `0` when `goal ≤ 0` and `min 100 (balance/goal*100)`
otherwise; for `goal > 0` and `balance ≥ 0` it lies in `[0, 100]` and equals
`100` exactly when `balance ≥ goal`. -/
theorem C3_percentComplete (goal balance : ℚ) :
    (goal ≤ 0 → progressPercentage goal balance = 0) ∧
    (goal > 0 → progressPercentage goal balance = min 100 (balance / goal * 100)) ∧
    (goal > 0 → 0 ≤ balance →
      0 ≤ progressPercentage goal balance ∧
      progressPercentage goal balance ≤ 100 ∧
      (progressPercentage goal balance = 100 ↔ goal ≤ balance)) := by
  refine ⟨fun hle => ?_, fun hgt => ?_, fun hgt hb => ?_⟩
  · simp only [progressPercentage, if_neg (not_lt.mpr hle)]
  · simp only [progressPercentage, if_pos hgt]
  · have hformula : progressPercentage goal balance = min 100 (balance / goal * 100) := by
      simp only [progressPercentage, if_pos hgt]
    refine ⟨?_, ?_, ?_⟩
    · rw [hformula]
      have : (0 : ℚ) ≤ balance / goal * 100 := by positivity
      exact le_min (by norm_num) this
    · rw [hformula]; exact min_le_left _ _
    · rw [hformula]
      constructor
      · intro h100
        by_contra hlt
        push_neg at hlt
        have hratio : balance / goal * 100 < 100 := by
          have : balance / goal < 1 := (div_lt_one hgt).mpr hlt
          nlinarith
        have : min (100 : ℚ) (balance / goal * 100) < 100 :=
          lt_of_le_of_lt (min_le_right _ _) hratio
        rw [h100] at this
        exact lt_irrefl _ this
      · intro hge
        have hratio : (100 : ℚ) ≤ balance / goal * 100 := by
          have : (1 : ℚ) ≤ balance / goal := (one_le_div hgt).mpr hge
          nlinarith
        exact min_eq_left hratio

/-- C3 witness: the theorem applied at `goal = 10000`, `balance = 2500`. -/
theorem C3_percentComplete_witness :
    progressPercentage 10000 2500 = min 100 (2500 / 10000 * 100) ∧
    0 ≤ progressPercentage 10000 2500 ∧
    progressPercentage 10000 2500 ≤ 100 := by
  have h := C3_percentComplete 10000 2500
  have hgt : (10000 : ℚ) > 0 := by norm_num
  have hb : (0 : ℚ) ≤ 2500 := by norm_num
  exact ⟨h.2.1 hgt, (h.2.2 hgt hb).1, (h.2.2 hgt hb).2.1⟩

/-! ### Claim C6: percentComplete sign-unrestricted invariant -/

/-- C6 counterexample: at `goal = 100`, `currentBalance = -50`, the code's
`percentComplete` is `-50`, which is negative — the claimed invariant
"never negative" fails once the balance may be negative. -/
theorem C6_counterexample :
    progressPercentage 100 (-50) = -50 ∧ progressPercentage 100 (-50) < 0 := by
  constructor
  · show (if (100 : ℚ) > 0 then min 100 ((-50) / 100 * 100) else 0) = -50
    norm_num
  · show (if (100 : ℚ) > 0 then min 100 ((-50) / 100 * 100) else 0) < 0
    norm_num

/-- C6 (amended): for every goal and balance, `percentComplete` never exceeds
`100`; it is moreover never negative provided `currentBalance ≥ 0` (or the
goal is non-positive, where it is `0`). -/
theorem C6_percent_bounds (goal balance : ℚ) :
    progressPercentage goal balance ≤ 100 ∧
    (0 ≤ balance ∨ goal ≤ 0 → 0 ≤ progressPercentage goal balance) := by
  constructor
  · by_cases hgt : goal > 0
    · simp only [progressPercentage, if_pos hgt]
      exact min_le_left _ _
    · simp only [progressPercentage, if_neg hgt]
      norm_num
  · intro hcase
    by_cases hgt : goal > 0
    · simp only [progressPercentage, if_pos hgt]
      rcases hcase with hb | hg
      · have : (0 : ℚ) ≤ balance / goal * 100 := by positivity
        exact le_min (by norm_num) this
      · exact absurd hgt (not_lt.mpr hg)
    · simp only [progressPercentage, if_neg hgt]
      exact le_refl 0

/-- C6 witness: the amended theorem applied at `goal = 100`, `balance = 30`. -/
theorem C6_percent_bounds_witness :
    progressPercentage 100 30 ≤ 100 ∧ 0 ≤ progressPercentage 100 30 :=
  ⟨(C6_percent_bounds 100 30).1,
   (C6_percent_bounds 100 30).2 (Or.inl (by norm_num))⟩

/-! ### Helper lemmas -/

/-- The JS `reduce((sum, t) => sum + f(t), init)` computes `init` plus the
sum of `f` over the list. -/
lemma foldl_add_eq (f : Tx → ℚ) (l : List Tx) (init : ℚ) :
    l.foldl (fun sum t => sum + f t) init = init + (l.map f).sum := by
  induction l generalizing init with
  | nil => simp
  | cons t ts ih =>
    simp only [List.foldl_cons, List.map_cons, List.sum_cons, ih]
    ring

/-! ### Claim C2: Dashboard totals -/

/-- C2: over the transactions included in the month window, `totalIncome` is
the sum of signed amounts of income transactions, `totalExpenses` is the sum
of absolute amounts of expense transactions (hence non-negative regardless of
stored signs), and `netBalance` is their difference. -/
theorem C2_aggregates (ts : List Tx) (w : Window) :
    totalIncome (currentMonthTransactions ts w) =
      (((currentMonthTransactions ts w).filter
        (fun t => decide (t.type = TxType.income))).map Tx.amount).sum ∧
    totalExpenses (currentMonthTransactions ts w) =
      (((currentMonthTransactions ts w).filter
        (fun t => decide (t.type = TxType.expense))).map (fun t => |t.amount|)).sum ∧
    netBalance (currentMonthTransactions ts w) =
      totalIncome (currentMonthTransactions ts w) -
        totalExpenses (currentMonthTransactions ts w) ∧
    0 ≤ totalExpenses (currentMonthTransactions ts w) := by
  refine ⟨?_, ?_, rfl, ?_⟩
  · rw [totalIncome, foldl_add_eq, zero_add]
  · rw [totalExpenses, foldl_add_eq, zero_add]
  · rw [totalExpenses, foldl_add_eq, zero_add]
    apply List.sum_nonneg
    intro x hx
    obtain ⟨t, _, rfl⟩ := List.mem_map.mp hx
    exact abs_nonneg t.amount

/-! ### Claim C5: ledger running balance -/

/-- The running-balance list is as long as its input. -/
lemma withRunningBalance_length (acc : ℚ) (ts : List Tx) :
    (withRunningBalance acc ts).length = ts.length := by
  induction ts generalizing acc with
  | nil => rfl
  | cons t ts ih => simp [withRunningBalance, ih]

/-- Position `i` of the running-balance list pairs the `i`-th transaction with
the accumulator plus the inclusive prefix sum of amounts up to `i`. -/
lemma withRunningBalance_getD (acc : ℚ) (ts : List Tx) (i : ℕ) (d : Tx)
    (h : i < ts.length) :
    (withRunningBalance acc ts).getD i (d, 0) =
      (ts.getD i d, acc + ((ts.take (i + 1)).map Tx.amount).sum) := by
  induction ts generalizing acc i with
  | nil => exact absurd h (by simp)
  | cons t ts ih =>
    cases i with
    | zero => simp [withRunningBalance, List.getD]
    | succ n =>
      have hn : n < ts.length := Nat.lt_of_succ_lt_succ h
      simp only [withRunningBalance, List.getD_cons_succ, ih _ _ hn,
        List.take_succ_cons, List.map_cons, List.sum_cons]
      rw [add_assoc]

/-- C5: `transactionsWithBalance` pairs the transaction at each position `i`
with the inclusive prefix sum of signed amounts up to `i` in the given order,
and the running balance at the last position is the sum of all amounts. -/
theorem C5_running_balance (ts : List Tx) (i : ℕ) (d : Tx)
    (h : i < ts.length) :
    (transactionsWithBalance ts).getD i (d, 0) =
      (ts.getD i d, ((ts.take (i + 1)).map Tx.amount).sum) ∧
    ((transactionsWithBalance ts).getD (ts.length - 1) (d, 0)).2 =
      (ts.map Tx.amount).sum := by
  have hpos : 0 < ts.length := lt_of_le_of_lt (Nat.zero_le i) h
  constructor
  · rw [transactionsWithBalance, withRunningBalance_getD 0 ts i d h, zero_add]
  · have hlast : ts.length - 1 < ts.length := Nat.sub_lt hpos Nat.one_pos
    rw [transactionsWithBalance, withRunningBalance_getD 0 ts _ d hlast,
      zero_add]
    have : ts.length - 1 + 1 = ts.length := Nat.succ_pred_eq_of_pos hpos
    rw [this, List.take_length]

/-- C5 witness: the theorem applied to three concrete transactions at
position `1`: running balances are the prefix sums `[100, 70, 20]`. -/
theorem C5_running_balance_witness :
    (transactionsWithBalance
        [⟨100, "Salary", 3, TxType.income⟩,
         ⟨-30, "Food", 4, TxType.expense⟩,
         ⟨-50, "Rent", 5, TxType.expense⟩]).getD 1
        (⟨0, "", 0, TxType.income⟩, 0) =
      (⟨-30, "Food", 4, TxType.expense⟩, 70) ∧
    ((transactionsWithBalance
        [⟨100, "Salary", 3, TxType.income⟩,
         ⟨-30, "Food", 4, TxType.expense⟩,
         ⟨-50, "Rent", 5, TxType.expense⟩]).getD
        (([⟨100, "Salary", 3, TxType.income⟩,
           ⟨-30, "Food", 4, TxType.expense⟩,
           ⟨-50, "Rent", 5, TxType.expense⟩] : List Tx).length - 1)
        (⟨0, "", 0, TxType.income⟩, 0)).2 = 20 := by
  have h := C5_running_balance
    [⟨100, "Salary", 3, TxType.income⟩,
     ⟨-30, "Food", 4, TxType.expense⟩,
     ⟨-50, "Rent", 5, TxType.expense⟩] 1 ⟨0, "", 0, TxType.income⟩
    (by norm_num)
  refine ⟨?_, ?_⟩
  · rw [h.1]
    norm_num [List.getD]
  · rw [h.2]
    norm_num

/-! ### Claim C9: Target currentBalance piecewise definition -/

/-- C9: the Target page's `currentBalance` is piecewise on `savingAmount`:
`null` gives the all-time signed sum plus the current month's net balance
(current-month activity counted twice, under two sign conventions); a nonzero
override `v` gives `v`; an override of exactly `0` gives the all-time signed
sum (the zero is ignored by the truthiness test in `baseBalance`). -/
theorem C9_currentBalance (ts : List Tx) (w : Window) :
    currentBalance none ts w =
      allAmountsSum ts + netBalance (currentMonthTransactions ts w) ∧
    (∀ v : ℚ, v ≠ 0 → currentBalance (some v) ts w = v) ∧
    currentBalance (some 0) ts w = allAmountsSum ts := by
  refine ⟨rfl, fun v hv => ?_, ?_⟩
  · simp [currentBalance, baseBalance, dashboardMonthlySavings, if_neg hv]
  · simp [currentBalance, baseBalance, dashboardMonthlySavings]

/-- C9 witness: the theorem applied to one concrete transaction list and
window, at `savingAmount` values `null`, `7`, and `0`. -/
theorem C9_currentBalance_witness :
    currentBalance none [⟨-40, "Food", 10, TxType.expense⟩] ⟨1, 31⟩ = -80 ∧
    currentBalance (some 7) [⟨-40, "Food", 10, TxType.expense⟩] ⟨1, 31⟩ = 7 ∧
    currentBalance (some 0) [⟨-40, "Food", 10, TxType.expense⟩] ⟨1, 31⟩ = -40 := by
  have h := C9_currentBalance [⟨-40, "Food", 10, TxType.expense⟩] ⟨1, 31⟩
  refine ⟨?_, h.2.1 7 (by norm_num), ?_⟩
  · rw [h.1]
    norm_num [allAmountsSum, netBalance, totalIncome, totalExpenses,
      currentMonthTransactions, inWindow, List.filter,
      show decide (TxType.expense = TxType.income) = false from rfl,
      show decide (TxType.expense = TxType.expense) = true from rfl]
  · rw [h.2.2]
    norm_num [allAmountsSum]

/-! ### Claim C7: category color fallback -/

/-- C7 counterexample: for the list containing the single category
`{name := "Food", color := ""}`, looking up `"Food"` returns the fallback
`"#6b7280"` even though a category with that name exists — JS `||` also
discards a falsy (empty-string) stored color, so the lookup does not always
return the matching category's color. -/
theorem C7_counterexample :
    getCategoryColor "Food" [⟨"Food", ""⟩] = "#6b7280" ∧
    ∀ c ∈ ([⟨"Food", ""⟩] : List Category),
      c.name = "Food" ∧ c.color ≠ "#6b7280" := by
  refine ⟨rfl, ?_⟩
  intro c hc
  rw [List.mem_singleton] at hc
  subst hc
  exact ⟨rfl, by decide⟩

/-- C7 (amended): the color lookup is total; it returns `"#6b7280"` when no
category in the list has the requested name, and when the first matching
category is found it returns that category's color unless the stored color is
the empty string, in which case it also falls back to `"#6b7280"`. -/
theorem C7_color_lookup (n : String) (cats : List Category) :
    ((∀ c ∈ cats, c.name ≠ n) → getCategoryColor n cats = "#6b7280") ∧
    (∀ c, cats.find? (fun c => c.name == n) = some c →
      getCategoryColor n cats = if c.color = "" then "#6b7280" else c.color) := by
  constructor
  · intro hnone
    have hfind : cats.find? (fun c => c.name == n) = none := by
      rw [List.find?_eq_none]
      intro c hc
      simp only [beq_iff_eq]
      exact hnone c hc
    simp [getCategoryColor, hfind]
  · intro c hc
    simp [getCategoryColor, hc]

/-- C7 witness: the theorem applied at an unmatched name (fallback) and at a
matched name with a non-empty color (the stored color). -/
theorem C7_color_lookup_witness :
    getCategoryColor "Nonexistent" [⟨"Food", "#ff0000"⟩] = "#6b7280" ∧
    getCategoryColor "Food" [⟨"Food", "#ff0000"⟩] = "#ff0000" := by
  constructor
  · exact (C7_color_lookup "Nonexistent" [⟨"Food", "#ff0000"⟩]).1
      (by intro c hc; rw [List.mem_singleton] at hc; subst hc; decide)
  · have h := (C7_color_lookup "Food" [⟨"Food", "#ff0000"⟩]).2
      ⟨"Food", "#ff0000"⟩ rfl
    simpa using h

/-! ### Claim C8: empty-window aggregates -/

/-- C8: when no transaction falls inside the period window, the Dashboard
aggregates are all zero and the category breakdown is the empty map. -/
theorem C8_empty_window (ts : List Tx) (w : Window) (cats : List Category)
    (h : currentMonthTransactions ts w = []) :
    totalIncome (currentMonthTransactions ts w) = 0 ∧
    totalExpenses (currentMonthTransactions ts w) = 0 ∧
    netBalance (currentMonthTransactions ts w) = 0 ∧
    expensesByCategory (currentMonthTransactions ts w) cats = [] := by
  rw [h]
  refine ⟨rfl, rfl, ?_, rfl⟩
  norm_num [netBalance, totalIncome, totalExpenses]

/-- C8 witness: the theorem applied to a non-empty transaction list whose only
transaction (dated day 40) lies outside the window `[1, 31]`. -/
theorem C8_empty_window_witness :
    totalIncome (currentMonthTransactions
      [⟨-40, "Food", 40, TxType.expense⟩] ⟨1, 31⟩) = 0 ∧
    totalExpenses (currentMonthTransactions
      [⟨-40, "Food", 40, TxType.expense⟩] ⟨1, 31⟩) = 0 ∧
    netBalance (currentMonthTransactions
      [⟨-40, "Food", 40, TxType.expense⟩] ⟨1, 31⟩) = 0 ∧
    expensesByCategory (currentMonthTransactions
      [⟨-40, "Food", 40, TxType.expense⟩] ⟨1, 31⟩) [⟨"Food", "#ff0000"⟩] = [] :=
  C8_empty_window [⟨-40, "Food", 40, TxType.expense⟩] ⟨1, 31⟩
    [⟨"Food", "#ff0000"⟩] rfl

/-! ### Claim C10: Dashboard expenses-by-category keying -/

/-- Reading the accumulator object: the head entry answers for its own key,
every other key is answered by the tail. -/
lemma lookupAmount_cons (k₀ : String) (v : ℚ) (tl : List (String × ℚ))
    (k' : String) :
    lookupAmount ((k₀, v) :: tl) k' =
      if k₀ = k' then v else lookupAmount tl k' := by
  by_cases h : k₀ = k'
  · simp [lookupAmount, List.find?_cons, h]
  · simp [lookupAmount, List.find?_cons, h]

/-- Updating the accumulator object under key `k` adds the amount to `k`'s
entry and leaves every other key's value unchanged. -/
lemma lookupAmount_upsert (acc : List (String × ℚ)) (k k' : String) (a : ℚ) :
    lookupAmount (upsertAmount acc k a) k' =
      lookupAmount acc k' + if k = k' then a else 0 := by
  induction acc with
  | nil =>
    by_cases hk : k = k'
    · simp [upsertAmount, lookupAmount_cons, hk, lookupAmount, List.find?]
    · simp [upsertAmount, lookupAmount_cons, hk, lookupAmount, List.find?,
        beq_eq_false_iff_ne.mpr hk]
  | cons hd tl ih =>
    obtain ⟨k₀, v⟩ := hd
    by_cases h0 : k₀ = k
    · subst h0
      by_cases hk : k₀ = k'
      · subst hk
        simp [upsertAmount, lookupAmount_cons]
      · simp [upsertAmount, lookupAmount_cons, hk,
          show ¬ k₀ = k' from hk]
    · by_cases hk : k₀ = k'
      · subst hk
        simp [upsertAmount, h0, lookupAmount_cons,
          show ¬ k = k₀ from fun h => h0 h.symm]
      · simp [upsertAmount, if_neg h0, lookupAmount_cons, hk, ih]

/-- Folding the Dashboard accumulator over a transaction list adds, under each
key, the total absolute amount of the transactions resolving to that key. -/
lemma lookupAmount_foldl (cats : List Category) (l : List Tx)
    (acc : List (String × ℚ)) (k : String) :
    lookupAmount
      (l.foldl (fun acc t =>
        upsertAmount acc (resolveCategoryName cats t.category) |t.amount|) acc) k =
      lookupAmount acc k +
        ((l.filter (fun t => resolveCategoryName cats t.category == k)).map
          (fun t => |t.amount|)).sum := by
  induction l generalizing acc with
  | nil => simp
  | cons t l ih =>
    simp only [List.foldl_cons, ih, lookupAmount_upsert]
    by_cases hk : resolveCategoryName cats t.category = k
    · have hb : (resolveCategoryName cats t.category == k) = true := by
        simp [hk]
      simp [List.filter_cons, hb, hk]
      ring
    · have hb : (resolveCategoryName cats t.category == k) = false :=
        beq_eq_false_iff_ne.mpr hk
      simp [List.filter_cons, hb, hk]

/-- C10 (amended): in the Dashboard breakdown, the amount accumulated under
each key is the total absolute amount of the expense transactions resolving to
that key, and a transaction's key is its own category name exactly when some
category in the user's list carries that name AND the name is non-empty;
otherwise (no match, or a matched empty-string name) the key is `"Other"`. -/
theorem C10_expense_breakdown (ts : List Tx) (cats : List Category)
    (k : String) :
    lookupAmount (expensesByCategory ts cats) k =
      (((ts.filter (fun t => decide (t.type = TxType.expense))).filter
        (fun t => resolveCategoryName cats t.category == k)).map
        (fun t => |t.amount|)).sum ∧
    ∀ txCategory : String,
      resolveCategoryName cats txCategory =
        if (∃ c ∈ cats, c.name = txCategory) ∧ txCategory ≠ "" then txCategory
        else "Other" := by
  constructor
  · rw [expensesByCategory, lookupAmount_foldl]
    simp [lookupAmount]
  · intro tc
    rcases hfind : cats.find? (fun c => c.name == tc) with _ | c
    · have hno : ¬ ∃ c ∈ cats, c.name = tc := by
        rw [List.find?_eq_none] at hfind
        rintro ⟨c, hc, hname⟩
        exact hfind c hc (by simp [hname])
      simp [resolveCategoryName, hfind, hno]
    · have hmem : c ∈ cats := List.mem_of_find?_eq_some hfind
      have hname : c.name = tc := by
        have := List.find?_some hfind
        simpa using this
      by_cases he : tc = ""
      · subst he
        simp [resolveCategoryName, hfind, hname]
      · have hex : ∃ c ∈ cats, c.name = tc := ⟨c, hmem, hname⟩
        rw [resolveCategoryName, hfind]
        simp [hname, he, hex]

/-- C10 counterexample: the expense transaction with category `""` matches the
category `{name := "", color := "#ffffff"}` in the user's list, yet it is
accumulated under `"Other"` rather than under the matching category's name —
JS `||` treats the matched empty-string name as falsy. -/
theorem C10_counterexample :
    (∃ c ∈ ([⟨"", "#ffffff"⟩] : List Category),
      c.name = (Tx.mk (-5) "" 10 TxType.expense).category) ∧
    expensesByCategory [⟨-5, "", 10, TxType.expense⟩] [⟨"", "#ffffff"⟩] =
      [("Other", 5)] := by
  constructor
  · exact ⟨⟨"", "#ffffff"⟩, by simp, rfl⟩
  · show upsertAmount [] (resolveCategoryName [⟨"", "#ffffff"⟩] "") |(-5 : ℚ)| =
      [("Other", 5)]
    norm_num [upsertAmount, resolveCategoryName, List.find?]

/-! ### Claim C4: top categories -/

/-- Reading the category map: the head entry answers for its own key. -/
lemma mapAmount_cons (e : CatEntry) (tl : List CatEntry) (k : String) :
    mapAmount (e :: tl) k = if e.category = k then e.amount else mapAmount tl k := by
  by_cases h : e.category = k
  · simp [mapAmount, List.find?_cons, h]
  · simp [mapAmount, List.find?_cons, h]

/-- Reading the category map's count component at the head entry. -/
lemma mapCount_cons (e : CatEntry) (tl : List CatEntry) (k : String) :
    mapCount (e :: tl) k = if e.category = k then e.count else mapCount tl k := by
  by_cases h : e.category = k
  · simp [mapCount, List.find?_cons, h]
  · simp [mapCount, List.find?_cons, h]

/-- `Map.set` adds the absolute amount under its own key and leaves every
other key's accumulated amount unchanged. -/
lemma mapAmount_upsert (m : List CatEntry) (k k' : String) (a : ℚ) :
    mapAmount (upsertCatEntry m k a) k' =
      mapAmount m k' + if k = k' then a else 0 := by
  induction m with
  | nil =>
    by_cases hk : k = k'
    · simp [upsertCatEntry, mapAmount_cons, hk, mapAmount, List.find?]
    · simp [upsertCatEntry, mapAmount_cons, hk, mapAmount, List.find?,
        beq_eq_false_iff_ne.mpr hk]
  | cons e tl ih =>
    by_cases h0 : e.category = k
    · by_cases hk : k = k'
      · simp only [upsertCatEntry, if_pos h0]
        rw [mapAmount_cons, mapAmount_cons]
        simp [hk, h0.trans hk]
      · simp only [upsertCatEntry, if_pos h0]
        rw [mapAmount_cons, mapAmount_cons]
        simp [show ¬ (k = k') from hk, show ¬ (e.category = k') from
          fun h => hk (h0.symm.trans h), hk]
    · by_cases hk : e.category = k'
      · simp only [upsertCatEntry, if_neg h0]
        rw [mapAmount_cons, mapAmount_cons]
        simp [hk, show ¬ k = k' from fun h => h0 (hk.trans h.symm)]
      · simp only [upsertCatEntry, if_neg h0]
        rw [mapAmount_cons, mapAmount_cons]
        simp [hk, ih]

/-- `Map.set` increments the count under its own key and leaves every other
key's count unchanged. -/
lemma mapCount_upsert (m : List CatEntry) (k k' : String) (a : ℚ) :
    mapCount (upsertCatEntry m k a) k' =
      mapCount m k' + if k = k' then 1 else 0 := by
  induction m with
  | nil =>
    by_cases hk : k = k'
    · simp [upsertCatEntry, mapCount_cons, hk, mapCount, List.find?]
    · simp [upsertCatEntry, mapCount_cons, hk, mapCount, List.find?,
        beq_eq_false_iff_ne.mpr hk]
  | cons e tl ih =>
    by_cases h0 : e.category = k
    · by_cases hk : k = k'
      · simp only [upsertCatEntry, if_pos h0]
        rw [mapCount_cons, mapCount_cons]
        simp [hk, h0.trans hk]
      · simp only [upsertCatEntry, if_pos h0]
        rw [mapCount_cons, mapCount_cons]
        simp [show ¬ (k = k') from hk, show ¬ (e.category = k') from
          fun h => hk (h0.symm.trans h), hk]
    · by_cases hk : e.category = k'
      · simp only [upsertCatEntry, if_neg h0]
        rw [mapCount_cons, mapCount_cons]
        simp [hk, show ¬ k = k' from fun h => h0 (hk.trans h.symm)]
      · simp only [upsertCatEntry, if_neg h0]
        rw [mapCount_cons, mapCount_cons]
        simp [hk, ih]

/-- Folding the category map over a transaction list accumulates, under each
key, the total absolute amount of the transactions with that category. -/
lemma mapAmount_foldl (l : List Tx) (m : List CatEntry) (k : String) :
    mapAmount (l.foldl (fun m t => upsertCatEntry m t.category |t.amount|) m) k =
      mapAmount m k + categoryAmountIn l k := by
  induction l generalizing m with
  | nil => simp [categoryAmountIn, categoryTxs]
  | cons t l ih =>
    simp only [List.foldl_cons, ih, mapAmount_upsert]
    by_cases hk : t.category = k
    · have hb : (t.category == k) = true := by simp [hk]
      simp [categoryAmountIn, categoryTxs, List.filter_cons, hb, hk]
      ring
    · have hb : (t.category == k) = false := beq_eq_false_iff_ne.mpr hk
      simp [categoryAmountIn, categoryTxs, List.filter_cons, hb, hk]

/-- Folding the category map over a transaction list counts, under each key,
the transactions with that category. -/
lemma mapCount_foldl (l : List Tx) (m : List CatEntry) (k : String) :
    mapCount (l.foldl (fun m t => upsertCatEntry m t.category |t.amount|) m) k =
      mapCount m k + categoryCountIn l k := by
  induction l generalizing m with
  | nil => simp [categoryCountIn, categoryTxs]
  | cons t l ih =>
    simp only [List.foldl_cons, ih, mapCount_upsert]
    by_cases hk : t.category = k
    · have hb : (t.category == k) = true := by simp [hk]
      simp [categoryCountIn, categoryTxs, List.filter_cons, hb, hk]
      omega
    · have hb : (t.category == k) = false := beq_eq_false_iff_ne.mpr hk
      simp [categoryCountIn, categoryTxs, List.filter_cons, hb, hk]

/-- Every key of an updated category map is the inserted key or a key that
was already present. -/
lemma key_mem_upsert {k' : String} (m : List CatEntry) (k : String) (a : ℚ)
    (h : k' ∈ (upsertCatEntry m k a).map CatEntry.category) :
    k' = k ∨ k' ∈ m.map CatEntry.category := by
  induction m with
  | nil => simpa [upsertCatEntry] using h
  | cons e tl ih =>
    by_cases h0 : e.category = k
    · simp only [upsertCatEntry, if_pos h0, List.map_cons, List.mem_cons] at h
      rcases h with h | h
      · exact Or.inl h
      · exact Or.inr (by simp [List.mem_cons, h])
    · simp only [upsertCatEntry, if_neg h0, List.map_cons, List.mem_cons] at h
      rcases h with h | h
      · exact Or.inr (by simp [List.mem_cons, h])
      · rcases ih h with h' | h'
        · exact Or.inl h'
        · exact Or.inr (by simp [List.mem_cons, h'])

/-- `Map.set` preserves distinctness of the category keys. -/
lemma pairwise_keys_upsert {m : List CatEntry}
    (h : m.Pairwise (fun a b => a.category ≠ b.category)) (k : String) (a : ℚ) :
    (upsertCatEntry m k a).Pairwise (fun a b => a.category ≠ b.category) := by
  induction m with
  | nil => simp [upsertCatEntry]
  | cons e tl ih =>
    rcases List.pairwise_cons.mp h with ⟨he, htl⟩
    by_cases h0 : e.category = k
    · simp only [upsertCatEntry, if_pos h0]
      refine List.pairwise_cons.mpr ⟨?_, htl⟩
      intro z hz
      exact h0 ▸ he z hz
    · simp only [upsertCatEntry, if_neg h0]
      refine List.pairwise_cons.mpr ⟨?_, ih htl⟩
      intro z hz
      have hzkey : z.category = k ∨ z.category ∈ tl.map CatEntry.category :=
        key_mem_upsert tl k a (List.mem_map_of_mem CatEntry.category hz)
      rcases hzkey with hzk | hzk
      · exact fun hek => h0 (hzk ▸ hek)
      · rcases List.mem_map.mp hzk with ⟨y, hy, hykey⟩
        exact fun hek => he y hy (hykey ▸ hek)

/-- The category map built by `getTopCategories` has pairwise-distinct keys. -/
lemma pairwise_keys_build (ts : List Tx) :
    (buildCategoryMap ts).Pairwise (fun a b => a.category ≠ b.category) := by
  suffices h : ∀ m : List CatEntry,
      m.Pairwise (fun a b => a.category ≠ b.category) →
      (ts.foldl (fun m t => upsertCatEntry m t.category |t.amount|) m).Pairwise
        (fun a b => a.category ≠ b.category) by
    exact h [] (by simp)
  induction ts with
  | nil => intro m hm; exact hm
  | cons t l ih =>
    intro m hm
    exact ih _ (pairwise_keys_upsert hm t.category |t.amount|)

/-- In a map with pairwise-distinct keys, `find?` on a member's key returns
that member. -/
lemma find?_of_mem_keys_nodup {m : List CatEntry} {e : CatEntry}
    (h : m.Pairwise (fun a b => a.category ≠ b.category)) (he : e ∈ m) :
    m.find? (fun x => x.category == e.category) = some e := by
  induction m with
  | nil => exact absurd he (List.not_mem_nil e)
  | cons y tl ih =>
    rcases List.pairwise_cons.mp h with ⟨hy, htl⟩
    rcases List.mem_cons.mp he with rfl | he'
    · simp [List.find?_cons]
    · have hne : ¬ y.category = e.category := hy e he'
      have hb : (y.category == e.category) = false := beq_eq_false_iff_ne.mpr hne
      simp [List.find?_cons, hb, ih htl he']

/-- Every entry of the folded category map carries a key that was already in
the accumulator or belongs to some processed transaction. -/
lemma mem_foldl_key {e : CatEntry} (l : List Tx) (m : List CatEntry)
    (h : e ∈ l.foldl (fun m t => upsertCatEntry m t.category |t.amount|) m) :
    e.category ∈ m.map CatEntry.category ∨ ∃ t ∈ l, t.category = e.category := by
  induction l generalizing m with
  | nil => exact Or.inl (List.mem_map_of_mem CatEntry.category h)
  | cons t l ih =>
    rcases ih _ h with h' | h'
    · rcases key_mem_upsert m t.category |t.amount| h' with hk | hk
      · exact Or.inr ⟨t, List.mem_cons_self t l, hk.symm⟩
      · exact Or.inl hk
    · rcases h' with ⟨t', ht', hkey⟩
      exact Or.inr ⟨t', List.mem_cons_of_mem t ht', hkey⟩

/-- Inserting into the sorted prefix only adds the inserted element. -/
lemma mem_insertDescByAmount {x z : CatEntry} {l : List CatEntry} :
    z ∈ insertDescByAmount x l ↔ z = x ∨ z ∈ l := by
  induction l with
  | nil => simp [insertDescByAmount]
  | cons y ys ih =>
    by_cases hle : y.amount ≤ x.amount
    · simp [insertDescByAmount, if_pos hle, List.mem_cons]
    · simp only [insertDescByAmount, if_neg hle, List.mem_cons, ih]
      tauto

/-- Inserting into a descending-sorted list keeps it descending-sorted. -/
lemma pairwise_insertDescByAmount {x : CatEntry} {l : List CatEntry}
    (h : l.Pairwise (fun a b => b.amount ≤ a.amount)) :
    (insertDescByAmount x l).Pairwise (fun a b => b.amount ≤ a.amount) := by
  induction l with
  | nil => simp [insertDescByAmount]
  | cons y ys ih =>
    rcases List.pairwise_cons.mp h with ⟨hy, hys⟩
    by_cases hle : y.amount ≤ x.amount
    · simp only [insertDescByAmount, if_pos hle]
      refine List.pairwise_cons.mpr ⟨?_, h⟩
      intro z hz
      rcases List.mem_cons.mp hz with rfl | hz'
      · exact hle
      · exact le_trans (hy z hz') hle
    · simp only [insertDescByAmount, if_neg hle]
      refine List.pairwise_cons.mpr ⟨?_, ih hys⟩
      intro z hz
      rcases mem_insertDescByAmount.mp hz with rfl | hz'
      · exact le_of_lt (lt_of_not_le hle)
      · exact hy z hz'

/-- The stable insertion sort produces a descending-sorted list. -/
lemma pairwise_sortDescByAmount (l : List CatEntry) :
    (sortDescByAmount l).Pairwise (fun a b => b.amount ≤ a.amount) := by
  induction l with
  | nil => simp [sortDescByAmount]
  | cons x xs ih => exact pairwise_insertDescByAmount ih

/-- Sorting does not change the set of entries. -/
lemma mem_sortDescByAmount {z : CatEntry} {l : List CatEntry} :
    z ∈ sortDescByAmount l ↔ z ∈ l := by
  induction l with
  | nil => simp [sortDescByAmount]
  | cons x xs ih => simp [sortDescByAmount, mem_insertDescByAmount, ih]

/-- C4 (amended): `getTopCategories` returns at most 5 entries, sorted by
accumulated amount in descending order, and each entry's amount (resp. count)
is the total absolute amount (resp. number) of ALL transactions — income as
well as expense — bearing that category name; every entry stems from at least
one transaction of the input. -/
theorem C4_topCategories (ts : List Tx) :
    (getTopCategories ts).length ≤ 5 ∧
    (getTopCategories ts).Pairwise (fun a b => b.amount ≤ a.amount) ∧
    ∀ e ∈ getTopCategories ts,
      e.amount = categoryAmountIn ts e.category ∧
      e.count = categoryCountIn ts e.category ∧
      ∃ t ∈ ts, t.category = e.category := by
  refine ⟨?_, ?_, ?_⟩
  · rw [getTopCategories, List.length_take]
    exact min_le_left 5 _
  · exact List.Pairwise.sublist (List.take_sublist 5 _)
      (pairwise_sortDescByAmount (buildCategoryMap ts))
  · intro e he
    have hmem : e ∈ buildCategoryMap ts :=
      mem_sortDescByAmount.mp (List.take_subset 5 _ he)
    have hnodup := pairwise_keys_build ts
    have hfind : (buildCategoryMap ts).find? (fun x => x.category == e.category) =
        some e := find?_of_mem_keys_nodup hnodup hmem
    have hamt : mapAmount (buildCategoryMap ts) e.category = e.amount := by
      simp [mapAmount, hfind]
    have hcnt : mapCount (buildCategoryMap ts) e.category = e.count := by
      simp [mapCount, hfind]
    have hamt' := mapAmount_foldl ts [] e.category
    have hcnt' := mapCount_foldl ts [] e.category
    rw [show (ts.foldl (fun m t => upsertCatEntry m t.category |t.amount|) []) =
      buildCategoryMap ts from rfl, hamt] at hamt'
    rw [show (ts.foldl (fun m t => upsertCatEntry m t.category |t.amount|) []) =
      buildCategoryMap ts from rfl, hcnt] at hcnt'
    have hempty_a : mapAmount [] e.category = 0 := rfl
    have hempty_c : mapCount [] e.category = 0 := rfl
    rw [hempty_a, zero_add] at hamt'
    rw [hempty_c, Nat.zero_add] at hcnt'
    refine ⟨hamt', hcnt', ?_⟩
    rcases mem_foldl_key ts [] hmem with h' | h'
    · simp at h'
    · exact h'

/-- C4 witness: the theorem applied to a single concrete expense transaction,
with the membership hypothesis discharged at the resulting entry. -/
theorem C4_topCategories_witness :
    (getTopCategories [⟨-20, "Food", 3, TxType.expense⟩]).length ≤ 5 ∧
    (CatEntry.mk "Food" 20 1).amount =
      categoryAmountIn [⟨-20, "Food", 3, TxType.expense⟩] "Food" := by
  have h := C4_topCategories [⟨-20, "Food", 3, TxType.expense⟩]
  have hmem : CatEntry.mk "Food" 20 1 ∈
      getTopCategories [⟨-20, "Food", 3, TxType.expense⟩] := by
    norm_num [getTopCategories, buildCategoryMap, upsertCatEntry,
      sortDescByAmount, insertDescByAmount, List.take]
  exact ⟨h.1, (h.2.2 _ hmem).1⟩

/-- C4 counterexample: for the input consisting of the single income
transaction `{amount: 1000, category: "Salary", type: income}` there are no
expense transactions at all, yet `getTopCategories` returns a non-empty list
containing the income category — so the top-categories list is NOT derived
from a breakdown built only from `type = expense` transactions. -/
theorem C4_counterexample :
    ([⟨1000, "Salary", 5, TxType.income⟩] : List Tx).filter
      (fun t => decide (t.type = TxType.expense)) = [] ∧
    getTopCategories [⟨1000, "Salary", 5, TxType.income⟩] =
      [⟨"Salary", 1000, 1⟩] := by
  constructor
  · rfl
  · norm_num [getTopCategories, buildCategoryMap, upsertCatEntry,
      sortDescByAmount, insertDescByAmount, List.take]

end FinanceTracker
